import Mathlib

/-!
Verification development for the rest-layer resource pipeline
(`resource/middleware.go`, `resource/resource.go`, `resource/util.go`,
`rest/method_item_put.go`).

The Go code is shallowly embedded: pointer-mutating functions become
explicit state passing, `(value, error)` returns become pairs with
`Option` errors, slices become lists (a `nil` item pointer inside a
slice becomes `Option`).  Collaborators that the code consumes through
interfaces (storage handlers, event hooks, validators, projection
evaluation) are abstract function parameters, so every theorem
quantifies over all of their behaviours.
-/

/-- A Go `interface{}` value as it can appear inside a payload map
(`map[string]interface{}`).  Scalars cover the values used in the
claims; `unsupported` stands for a value `encoding/json` cannot
marshal (e.g. a channel or function), making `json.Marshal` fallible;
`tombstone` models the `schema.Tombstone` clearing sentinel. -/
inductive JVal where
  | str : String → JVal
  | num : Int → JVal
  | boolean : Bool → JVal
  | null : JVal
  | tombstone : JVal
  | unsupported : JVal
deriving DecidableEq, Repr

/-- A Go `map[string]interface{}` represented as an association list
with pairwise-distinct keys (Go maps cannot hold duplicate keys; the
representation order models Go's arbitrary iteration order). -/
def GoMap : Type := List (String × JVal)

instance : DecidableEq GoMap := by unfold GoMap; infer_instance

/-- Go map read `m[k]` (`nil`/absent ⇒ `none`). -/
def mapGet (m : GoMap) (k : String) : Option JVal :=
  (m.find? (fun kv => kv.1 = k)).map (fun kv => kv.2)

/-- Go map write `m[k] = v` (replaces the existing binding or appends). -/
def mapSet (m : GoMap) (k : String) (v : JVal) : GoMap :=
  match m with
  | [] => [(k, v)]
  | kv :: rest => if kv.1 = k then (k, v) :: rest else kv :: mapSet rest k v

/-- Go map delete `delete(m, k)`. -/
def mapDel (m : GoMap) (k : String) : GoMap :=
  m.filter (fun kv => ¬ kv.1 = k)

/-- The keys of a payload map. -/
def mapKeys (m : GoMap) : List String := m.map (fun kv => kv.1)

/-- Lexicographic comparison of character lists by code point; on UTF-8
strings this coincides with Go's byte-wise `sort.Strings` order used by
`encoding/json` for map keys. -/
def charListLe : List Char → List Char → Bool
  | [], _ => true
  | _ :: _, [] => false
  | a :: as, b :: bs =>
    if a.toNat < b.toNat then true
    else if b.toNat < a.toNat then false
    else charListLe as bs

/-- Go's string order on keys. -/
def keyLe (a b : String) : Bool := charListLe a.data b.data

/-- `keyLe` as a decidable relation (for `List.insertionSort`). -/
def keyLeP (a b : String) : Prop := keyLe a b = true

instance : DecidableRel keyLeP := fun a b => by unfold keyLeP; infer_instance

/-- JSON rendering of a single value, as `encoding/json` does for the
scalar cases (string escaping elided; `tombstone` is a struct and
marshals as an empty object).  `unsupported` is the fallible case:
`json.Marshal` returns an `UnsupportedTypeError` there. -/
def renderJVal : JVal → Option String
  | .str s => some ("\"" ++ s ++ "\"")
  | .num n => some (toString n)
  | .boolean b => some (cond b "true" "false")
  | .null => some "null"
  | .tombstone => some "\x7b\x7d"
  | .unsupported => none

/-- `encoding/json.Marshal` on a `map[string]interface{}`: Go sorts the
map keys and emits each key/value pair in that order, failing if any
value is unmarshalable. -/
def jsonMarshal (m : GoMap) : Option String :=
  let ks := List.insertionSort keyLeP (mapKeys m)
  match ks.mapM (fun k =>
      match mapGet m k with
      | some v => (renderJVal v).map (fun sv => "\"" ++ k ++ "\":" ++ sv)
      | none => none) with
  | some fields => some ("\x7b" ++ String.intercalate "," fields ++ "\x7d")
  | none => none

/-- `resource/util.go` `GenEtag`: marshal the payload to JSON and hash
the bytes (`fmt.Sprintf("%x", md5.Sum(b))`).  The digest (`crypto/md5`
plus hex rendering, external to the repository) is an explicit function
parameter; every theorem about `GenEtag` holds for an arbitrary digest,
in particular for the real MD5. -/
def GenEtag (digest : String → String) (payload : GoMap) : Option String :=
  (jsonMarshal payload).map digest

namespace Resource

/-- A Go `error` value in the resource layer: either the error produced
by `GenEtag` (a `json` marshalling error) or any other error value
drawn from an abstract type `ε` (hook errors, storage errors, ...).
Go compares errors with `==`; `DecidableEq` models that. -/
inductive RErr (ε : Type) where
  | marshal : RErr ε
  | err : ε → RErr ε
deriving DecidableEq

/-- `resource.Item`: identity, content hash (ETag), last-updated
timestamp, validated payload (`resource/item.go`, used throughout
`resource/resource.go`). -/
structure Item (ι : Type) where
  id : ι
  etag : String
  updated : Nat
  payload : GoMap
deriving DecidableEq

/-- `query.Query` as consumed by the pipeline: a predicate, an optional
window, an optional sort and a projection, each abstract.  The zero
value of the reference/slice fields is `none`/`[]`. -/
structure Query (π ω σ ρ : Type) where
  predicate : π
  window : Option ω
  sort : Option σ
  projection : List ρ

/-- `resource.ItemList`: ordered items plus a total (−1 = unknown). -/
structure ItemList (ι : Type) where
  items : List (Option (Item ι))
  total : Int

section Middleware

variable {ι ε π ω σ ρ : Type} [DecidableEq ι] [DecidableEq ε]

/-- The storage handler interface (`resource/storage.go` consumers seen
from `middleware.go`): every method is an abstract function returning a
Go-style `(value, error)` pair. -/
structure Storage (ι ε π ω σ ρ : Type) where
  get : ι → Option (Item ι) × Option (RErr ε)
  multiGet : List ι → List (Option (Item ι)) × Option (RErr ε)
  find : Query π ω σ ρ → Option (ItemList ι) × Option (RErr ε)
  count : Query π ω σ ρ → Int × Option (RErr ε)
  insert : List (Option (Item ι)) → Option (RErr ε)
  update : Item ι → Item ι → Option (RErr ε)
  delete : Item ι → Option (RErr ε)
  clear : Query π ω σ ρ → Int × Option (RErr ε)

/-- The event-hook interface (`resource/hooks.go` consumers seen from
`middleware.go`).  Pre-hooks return an error; post-hooks receive the
current result and error by reference and may rewrite both, modelled as
functions from the seeded values to the rewritten values. -/
structure Hooks (ι ε π ω σ ρ : Type) where
  onGet : ι → Option (RErr ε)
  onGot : Option (Item ι) → Option (RErr ε) → Option (Item ι) × Option (RErr ε)
  onFind : Query π ω σ ρ → Option (RErr ε)
  onFound : Query π ω σ ρ → Option (ItemList ι) → Option (RErr ε) →
    Option (ItemList ι) × Option (RErr ε)
  onInsert : List (Option (Item ι)) → Option (RErr ε)
  onInserted : List (Option (Item ι)) → Option (RErr ε) →
    List (Option (Item ι)) × Option (RErr ε)
  onUpdate : Item ι → Item ι → Option (RErr ε)
  onUpdated : Item ι → Item ι → Option (RErr ε) → Item ι × Option (RErr ε)
  onDelete : Item ι → Option (RErr ε)
  onDeleted : Item ι → Option (RErr ε) → Item ι × Option (RErr ε)
  onClear : Query π ω σ ρ → Option (RErr ε)
  onCleared : Query π ω σ ρ → Int → Option (RErr ε) → Int × Option (RErr ε)

variable (digest : String → String)

/-- `resource/resource.go` `recalcEtag`: walk the items, skip `nil`
entries, recompute each ETag with `GenEtag` and write it into the item;
the first hashing failure stops the walk and is returned (items already
walked keep their new ETags, the failing and later items are
untouched). -/
def recalcEtag : List (Option (Item ι)) → List (Option (Item ι)) × Option (RErr ε)
  | [] => ([], none)
  | none :: rest =>
    let (rest2, e) := recalcEtag rest
    (none :: rest2, e)
  | some it :: rest =>
    match GenEtag digest it.payload with
    | none => (some it :: rest, some .marshal)
    | some etag =>
      let (rest2, e) := recalcEtag rest
      (some { it with etag := etag } :: rest2, e)

/-- `middleware.go` `onGetMiddlewareDefault`: pre-hook, storage `Get`
unless the pre-hook errored, then always the post-hook. -/
def onGetMiddlewareDefault (stor : Storage ι ε π ω σ ρ) (hooks : Hooks ι ε π ω σ ρ)
    (id : ι) : Option (Item ι) × Option (RErr ε) :=
  let (item, err) :=
    match hooks.onGet id with
    | none => stor.get id
    | some e => (none, some e)
  hooks.onGot item err

/-- The per-id pre-hook error, or else the global error — the seed
handed to each id's post-hook in `onMultiGetMiddlewareDefault`. -/
def mgSeed (errs : List (Option (RErr ε))) (err1 : Option (RErr ε)) (i : Nat) :
    Option (RErr ε) :=
  match errs.getD i none with
  | some e => some e
  | none => err1

/-- One iteration of the post-hook loop of
`onMultiGetMiddlewareDefault` (`middleware.go` lines 153–170): the
state carries the `items` slice and the `errOverwrite` variable. -/
def mgStep (hooks : Hooks ι ε π ω σ ρ) (errs : List (Option (RErr ε)))
    (err1 : Option (RErr ε)) (st : List (Option (Item ι)) × Option (RErr ε))
    (i : Nat) : List (Option (Item ι)) × Option (RErr ε) :=
  let its := st.1
  let eo := st.2
  let item := its.getD i none
  -- Give the pre-hook error for this id or global otherwise.
  let (item2, e2) := hooks.onGot item (mgSeed errs err1 i)
  let eo2 := if eo = none ∧ ¬ e2 = errs.getD i none then e2 else eo
  let its2 :=
    if e2 = none ∧ i < its.length ∧ ¬ item2 = its.getD i none then
      its.set i item2
    else its
  (its2, eo2)

/-- `middleware.go` `onMultiGetMiddlewareDefault`, step by step: per-id
pre-hooks with the first error as global error, storage `MultiGet`
suppressed on a global error, then the per-id post-hook loop (`mgStep`)
carrying the `items` slice and the `errOverwrite` variable. -/
def onMultiGetMiddlewareDefault (stor : Storage ι ε π ω σ ρ)
    (hooks : Hooks ι ε π ω σ ρ) (ids : List ι) :
    List (Option (Item ι)) × Option (RErr ε) :=
  let errs := ids.map hooks.onGet
  -- first pre-hook error is the global error.
  let err0 : Option (RErr ε) := errs.findSome? (fun e => e)
  -- Perform the storage request if none of the pre-hook returned an err.
  let (items0, err1) :=
    match err0 with
    | none => stor.multiGet ids
    | some e => ([], some e)
  let (items1, errOverwrite) :=
    (List.range ids.length).foldl (mgStep hooks errs err1) (items0, none)
  let err2 := match errOverwrite with
    | some e => some e
    | none => err1
  if err2 = none then (items1, err2) else ([], err2)

/-- `middleware.go` `onFindMiddlewareDefault`: pre-hook, storage `Find`,
and when the total is unknown (−1) under `forceTotal`, a second storage
`Count` on a query holding only the original predicate; the post-hook
always runs last. -/
def onFindMiddlewareDefault (stor : Storage ι ε π ω σ ρ)
    (hooks : Hooks ι ε π ω σ ρ) (q : Query π ω σ ρ) (forceTotal : Bool) :
    Option (ItemList ι) × Option (RErr ε) :=
  let (list, err) :=
    match hooks.onFind q with
    | some e => (none, some e)
    | none =>
      match stor.find q with
      | (some l, none) =>
        if l.total = -1 ∧ forceTotal then
          -- Send a query with no window so the storage won't be tempted
          -- to count within the window.
          let (t, cerr) := stor.count ⟨q.predicate, none, none, []⟩
          (some { l with total := t }, cerr)
        else (some l, none)
      | (l, e) => (l, e)
  hooks.onFound q list err

/-- `middleware.go` `onInsertMiddlewareDefault`: pre-hook, then
`recalcEtag`, then storage `Insert`, each step only if the previous one
left a nil error; the post-hook always runs with the current items and
error. -/
def onInsertMiddlewareDefault (stor : Storage ι ε π ω σ ρ)
    (hooks : Hooks ι ε π ω σ ρ) (items : List (Option (Item ι))) :
    List (Option (Item ι)) × Option (RErr ε) :=
  let (items1, err1) :=
    match hooks.onInsert items with
    | some e => (items, some e)
    | none =>
      let (its, ee) := recalcEtag digest items
      match ee with
      | some e => (its, some e)
      | none => (its, stor.insert its)
  hooks.onInserted items1 err1

/-- `middleware.go` `onUpdateMiddlewareDefault`: pre-hook, then
`recalcEtag` on the single item, then storage `Update`; the post-hook
always runs with the current item and error. -/
def onUpdateMiddlewareDefault (stor : Storage ι ε π ω σ ρ)
    (hooks : Hooks ι ε π ω σ ρ) (item original : Item ι) :
    Item ι × Option (RErr ε) :=
  let (item1, err1) :=
    match hooks.onUpdate item original with
    | some e => (item, some e)
    | none =>
      let (its, ee) := recalcEtag digest [some item]
      let item' := match its with
        | some it :: _ => it
        | _ => item
      match ee with
      | some e => (item', some e)
      | none => (item', stor.update item' original)
  hooks.onUpdated item1 original err1

/-- `middleware.go` `onDeleteMiddlewareDefault`. -/
def onDeleteMiddlewareDefault (stor : Storage ι ε π ω σ ρ)
    (hooks : Hooks ι ε π ω σ ρ) (item : Item ι) : Item ι × Option (RErr ε) :=
  let err :=
    match hooks.onDelete item with
    | none => stor.delete item
    | some e => some e
  hooks.onDeleted item err

/-- `middleware.go` `onClearMiddlewareDefault`. -/
def onClearMiddlewareDefault (stor : Storage ι ε π ω σ ρ)
    (hooks : Hooks ι ε π ω σ ρ) (q : Query π ω σ ρ) : Int × Option (RErr ε) :=
  let (deleted, err) :=
    match hooks.onClear q with
    | none => stor.clear q
    | some e => (0, some e)
  hooks.onCleared q deleted err

end Middleware

section Chain

variable {H : Type}

/-- The rebuild loop inside `Chain` (`middleware.go`): starting from a
fresh default handler, iterate the stored registration list in reverse
(`for i := len(c)-1; i >= 0; i--`), wrapping each middleware around the
handler built so far.  `H` is the handler type of the operation kind;
the per-kind `case` arms of `Chain` are this same loop at different
handler types. -/
def rebuildChain (dflt : H) (c : List (H → H)) : H :=
  c.reverse.foldl (fun acc m => m acc) dflt

/-- One registration in `Chain`: append the middleware to the stored
list for its operation kind, then rebuild the whole composed handler
from that list and a fresh default handler. -/
def chainRegister (dflt : H) (st : List (H → H)) (m : H → H) :
    List (H → H) × H :=
  let c := st ++ [m]
  (c, rebuildChain dflt c)

/-- A sequence of `Chain` registrations of one operation kind, starting
from stored list `st` (after `initMiddlewares`, `st = []` and the
composed handler is the default, i.e. `rebuildChain dflt []`).  Returns
the final stored list and composed handler. -/
def chainAll (dflt : H) (st : List (H → H)) (ms : List (H → H)) :
    List (H → H) × H :=
  ms.foldl (fun s m => chainRegister dflt s.1 m) (st, rebuildChain dflt st)

end Chain

section Pipeline

variable {ι ε π ω σ ρ : Type} [DecidableEq ι] [DecidableEq ε]

/-- Go's built-in `copy(dst, src)` on slices: overwrite the first
`min |dst| |src|` positions of `dst` with the corresponding elements of
`src`, keeping the rest of `dst`. -/
def goCopy {α : Type} (dst src : List α) : List α :=
  src.take dst.length ++ dst.drop src.length

/-- `resource.go` `Resource.Insert` minus the debug logging (which is
behaviourally inert): run the composed insert chain, and on a nil error
copy the returned items back into the caller's slice. -/
def Insert (chain : List (Option (Item ι)) → List (Option (Item ι)) × Option (RErr ε))
    (items : List (Option (Item ι))) : List (Option (Item ι)) × Option (RErr ε) :=
  let (newItems, err) := chain items
  match err with
  | none => (goCopy items newItems, none)
  | some e => (items, some e)

/-- `resource.go` `Resource.Update` minus the debug logging: run the
composed update chain, and on a nil error overwrite the caller's item
with the returned one (`*item = *newItem`). -/
def Update (chain : Item ι → Item ι → Item ι × Option (RErr ε))
    (item original : Item ι) : Item ι × Option (RErr ε) :=
  let (newItem, err) := chain item original
  match err with
  | none => (newItem, none)
  | some e => (item, some e)

/-- `resource.go` `Resource.Delete` minus the debug logging: run the
composed delete chain, and on a nil error overwrite the caller's item
with the returned one. -/
def Delete (chain : Item ι → Item ι × Option (RErr ε)) (item : Item ι) :
    Item ι × Option (RErr ε) :=
  let (newItem, err) := chain item
  match err with
  | none => (newItem, none)
  | some e => (item, some e)

/-- `resource.go` `Resource.find`: drive the composed find chain with
the given `forceTotal` flag. -/
def find (chain : Query π ω σ ρ → Bool → Option (ItemList ι) × Option (RErr ε))
    (q : Query π ω σ ρ) (forceTotal : Bool) : Option (ItemList ι) × Option (RErr ε) :=
  chain q forceTotal

/-- `resource.go` `Resource.Find` = `find` with `forceTotal = false`. -/
def Find (chain : Query π ω σ ρ → Bool → Option (ItemList ι) × Option (RErr ε))
    (q : Query π ω σ ρ) : Option (ItemList ι) × Option (RErr ε) :=
  find chain q false

/-- `resource.go` `Resource.FindWithTotal` = `find` with
`forceTotal = true`. -/
def FindWithTotal (chain : Query π ω σ ρ → Bool → Option (ItemList ι) × Option (RErr ε))
    (q : Query π ω σ ρ) : Option (ItemList ι) × Option (RErr ε) :=
  find chain q true

end Pipeline

end Resource

namespace Rest

/-- `rest.Error` (`rest/errors.go`): an HTTP-level error with a status
code and a message (per-field issues elided; only their presence via
the 422 constructor sites matters to the claims).  Collaborator errors
reaching the REST layer are modelled as already-mapped `rest.Error`
values, folding the `NewError` translation into the collaborator. -/
structure Error where
  code : Nat
  message : String
deriving DecidableEq

/-- `rest.ErrNotFound`. -/
def ErrNotFound : Error := ⟨404, "Not Found"⟩

/-- `rest.ErrPreconditionFailed`. -/
def ErrPreconditionFailed : Error := ⟨412, "Precondition Failed"⟩

/-- The error `NewError` produces for a `json` marshalling failure
(unclassified, hence code 520 with the original message). -/
def errMarshal : Error := ⟨520, "json: unsupported type"⟩

/-- A `resource.Item` as handled by the REST layer: `nil`-able payload
(the no-content elision sets `item.Payload = nil`), identity drawn from
the document's `id` field. -/
structure RItem where
  id : JVal
  etag : String
  updated : Nat
  payload : Option GoMap
deriving DecidableEq

/-- `resource.ItemList` on the REST side (item pointers returned by
`Find` here are never nil). -/
structure RItemList where
  items : List RItem
  total : Int
deriving DecidableEq

/-- The two PUT modes of `resource.Conf` relevant to
`itemPutCreateReplace`. -/
inductive Mode where
  | create
  | replace
deriving DecidableEq

section Put

variable {π σ ρ : Type} [DecidableEq π] [DecidableEq σ] [DecidableEq ρ]

/-- The REST-level query: predicate, window (a limit), sort,
projection, abstract except where the PUT flow touches them. -/
abbrev RQuery (π σ ρ : Type) := Resource.Query π Nat σ ρ

/-- Every collaborator `itemPut*` consumes, as abstract functions:
request decoding, the route's query and path values, the resource's
`Find`/`Update`/`Insert` pipeline entry points, `Prepare`/`Validate`,
projection evaluation, the conditional-request headers and the no-body
preference, and the registered command. -/
structure PutEnv (π σ ρ : Type) where
  decodePayload : Except Error GoMap
  routeQuery : Except Error (RQuery π σ ρ)
  find : RQuery π σ ρ → Option RItemList × Option Error
  isModeAllowed : Mode → Bool
  ifMatch : Option String
  ifUnmodifiedSince : Option Nat
  noContent : Bool
  routeValues : List (String × JVal)
  prepare : GoMap → Option GoMap → Bool → GoMap × GoMap
  validate : GoMap → GoMap → GoMap × List (String × String)
  update : RItem → RItem → Except Error RItem
  insert : RItem → Except Error RItem
  projEval : List ρ → GoMap → Except Error GoMap
  now : Nat
  command : RItem → GoMap → List (String × String) × RItem × GoMap × Option Error

/-- Modelled from the spec: `checkIntegrityRequest` (only its call
sites are under `src/`).  Spec §4.5: the integrity check "compares
caller-supplied conditional-request tokens (an expected content hash,
and/or an expected not-modified-since timestamp) against the original's
actual content hash/timestamp; mismatch aborts with a
precondition-failed condition before any validation or storage call
occurs".  With no token supplied, or no original to compare against
(the spec does not constrain that case and the claims only concern an
existing original), there is nothing to check. -/
def checkIntegrityRequest (ifMatch : Option String) (ifUnmod : Option Nat)
    (original : Option RItem) : Option Error :=
  match original with
  | none => none
  | some o =>
    match ifMatch with
    | some expected =>
      if ¬ expected = o.etag then some ErrPreconditionFailed
      else
        match ifUnmod with
        | some t => if o.updated > t then some ErrPreconditionFailed else none
        | none => none
    | none =>
      match ifUnmod with
      | some t => if o.updated > t then some ErrPreconditionFailed else none
      | none => none

/-- Modelled from the spec: `resource.NewItem` (`resource/item.go` is
not under `src/`).  Spec §3: an Item is "identity (opaque comparable
identifier), content hash ('ETag' — a content-derived fingerprint of
the payload), last-updated timestamp, payload"; the identity comes from
the validated document's `id` field and the content hash from the
deterministic payload hash, failing if the document cannot be hashed or
carries no identity. -/
def NewItem (digest : String → String) (now : Nat) (doc : GoMap) :
    Except Error RItem :=
  match mapGet doc "id" with
  | none => .error ⟨520, "missing ID field"⟩
  | some idv =>
    match GenEtag digest doc with
    | none => .error errMarshal
    | some h => .ok ⟨idv, h, now, some doc⟩

/-- The response body of `itemPutCreateReplace`: either an error or the
(possibly payload-stripped) item. -/
inductive Body where
  | err : Error → Body
  | item : RItem → Body
deriving DecidableEq

variable (digest : String → String)

/-- `rest/method_item_put.go` lines 94–106: the pre-mutation output
hash — the item's own ETag, or, under a projection, the hash of the
projected payload. -/
def preHookEtagOf (env : PutEnv π σ ρ) (q : RQuery π σ ρ) (item0 : RItem) :
    Except Error String :=
  if q.projection = [] then .ok item0.etag
  else
    match env.projEval q.projection (item0.payload.getD []) with
    | .error e => .error e
    | .ok projected =>
      match GenEtag digest projected with
      | none => .error errMarshal
      | some h => .ok h

/-- `rest/method_item_put.go` lines 111–121: `Update` against the
original when one was fetched (so storage can check the original's
ETag), `Insert` otherwise; the result is the authoritative item
written back by the pipeline. -/
def storeItem (env : PutEnv π σ ρ) (original : Option RItem) (item0 : RItem) :
    Except Error RItem :=
  match original with
  | some o => env.update item0 o
  | none => env.insert item0

/-- `rest/method_item_put.go` lines 123–137: the post-mutation output
hash — the stored item's ETag, or, under a projection, the hash of the
re-projected payload. -/
def postHookEtagOf (q : RQuery π σ ρ) (item1 : RItem) (pay2 : GoMap) :
    Except Error String :=
  if q.projection = [] then .ok item1.etag
  else
    match GenEtag digest pay2 with
    | none => .error errMarshal
    | some h => .ok h

/-- `rest/method_item_put.go` lines 94–147: compute the pre-mutation
projected hash, run `Update`/`Insert`, recompute the post-mutation
projected hash over the re-projected payload, and elide the body (and
downgrade a 200 to 204) for a no-body request whose hashes match. -/
def putStoreAndRespond (env : PutEnv π σ ρ) (q : RQuery π σ ρ)
    (status0 : Nat) (original : Option RItem) (item0 : RItem) : Nat × Body :=
  match preHookEtagOf digest env q item0 with
  | .error e => (e.code, .err e)
  | .ok preHookEtag =>
    match storeItem env original item0 with
    | .error e => (e.code, .err e)
    | .ok item1 =>
      match env.projEval q.projection (item1.payload.getD []) with
      | .error e => (e.code, .err e)
      | .ok pay2 =>
        let item2 : RItem := { item1 with payload := some pay2 }
        match postHookEtagOf digest q item1 pay2 with
        | .error e => (e.code, .err e)
        | .ok postHookEtag =>
          if env.noContent ∧ preHookEtag = postHookEtag then
            -- 201 will be returned as is, but with empty body
            ( if status0 = 200 then 204 else status0,
              .item { item2 with payload := none } )
          else (status0, .item item2)

/-- `rest/method_item_put.go` lines 70–78: append the route's lookup
fields to the base payload so they are not caught by the read-only
check, dropping any tombstone aimed at such a field from the changes. -/
def seedRouteValues (routeValues : List (String × JVal)) (cb : GoMap × GoMap) :
    GoMap × GoMap :=
  routeValues.foldl
    (fun (cb : GoMap × GoMap) kv =>
      ( if mapGet cb.1 kv.1 = some JVal.tombstone then mapDel cb.1 kv.1
        else cb.1,
        mapSet cb.2 kv.1 kv.2 ))
    cb

/-- `rest/method_item_put.go` lines 189–192 (command path): append the
route's lookup fields to the base payload (no tombstone handling
there). -/
def seedBaseValues (routeValues : List (String × JVal)) (b : GoMap) : GoMap :=
  routeValues.foldl (fun b kv => mapSet b kv.1 kv.2) b

/-- `rest/method_item_put.go` lines 43–92: mode check, integrity check,
`Prepare`, route-value seeding of the base payload (with tombstone
discarding), `Validate`, identity-change rejection, `NewItem`. -/
def itemPutWithOriginal (env : PutEnv π σ ρ) (q : RQuery π σ ρ)
    (payload : GoMap) (original : Option RItem) : Nat × Body :=
  let mode := match original with
    | some _ => Mode.replace
    | none => Mode.create
  if ¬ env.isModeAllowed mode then (405, .err ⟨405, "Method Not Allowed"⟩)
  else
    match checkIntegrityRequest env.ifMatch env.ifUnmodifiedSince original with
    | some e => (e.code, .err e)
    | none =>
      let status0 : Nat := match original with
        | some _ => 200
        | none => 201
      let (changes0, base0) :=
        match original with
        | none => env.prepare payload none false
        | some o => env.prepare payload o.payload true
      -- Append lookup fields to base payload so it isn't caught by
      -- ReadOnly; drop any tombstone aimed at such a field.
      let (changes, base) := seedRouteValues env.routeValues (changes0, base0)
      let (doc, errs) := env.validate changes base
      if ¬ errs = [] then (422, .err ⟨422, "Document contains error(s)"⟩)
      else
        let idMismatch : Bool :=
          match original, mapGet doc "id" with
          | some o, some idv => ¬ idv = o.id
          | _, _ => false
        if idMismatch then (422, .err ⟨422, "Cannot change document ID"⟩)
        else
          match NewItem digest env.now doc with
          | .error e => (e.code, .err e)
          | .ok item0 => putStoreAndRespond digest env q status0 original item0

/-- `rest/method_item_put.go` `itemPutCreateReplace`: decode, build the
query, fetch at most one original (absence ⇒ create, presence ⇒
replace), then hand over to the validation/store flow. -/
def itemPutCreateReplace (env : PutEnv π σ ρ) : Nat × Body :=
  match env.decodePayload with
  | .error e => (e.code, .err e)
  | .ok payload =>
    match env.routeQuery with
    | .error e => (e.code, .err e)
    | .ok q0 =>
      let q : RQuery π σ ρ := { q0 with window := some 1 }
      let (l, ferr) := env.find q
      let original : Option RItem :=
        match l with
        | some ll =>
          match ll.items with
          | [it] => some it
          | _ => none
        | none => none
      match ferr with
      | some e =>
        if ¬ e = ErrNotFound then (e.code, .err e)
        else itemPutWithOriginal digest env q payload original
      | none => itemPutWithOriginal digest env q payload original

/-- The response body of `itemPutCommand`: an error, or the final item
(identity/hash/timestamp), the command's response map, and the `item`
payload entry when it is included (`!isNoContent(r) || len(changes) >
0`). -/
inductive CmdBody where
  | err : Error → CmdBody
  | result : RItem → GoMap → Option (Option GoMap) → CmdBody
deriving DecidableEq

/-- `rest/method_item_put.go` `itemPutCommand`: decode, fetch the
original (absence ⇒ 404), integrity check, run the command on a private
copy, and when the command changed the payload re-run the full
validate/store path exactly as an update. -/
def itemPutCommand (env : PutEnv π σ ρ) :
    Nat × List (String × String) × CmdBody :=
  match env.decodePayload with
  | .error e => (e.code, [], .err e)
  | .ok payload =>
    match env.routeQuery with
    | .error e => (e.code, [], .err e)
    | .ok q0 =>
      let q : RQuery π σ ρ := { q0 with window := some 1 }
      let (l, ferr) := env.find q
      match ferr with
      | some e => (e.code, [], .err e)
      | none =>
        match (match l with | some ll => ll.items | none => []) with
        | [] => (ErrNotFound.code, [], .err ErrNotFound)
        | original :: _ =>
          match checkIntegrityRequest env.ifMatch env.ifUnmodifiedSince
              (some original) with
          | some e => (e.code, [], .err e)
          | none =>
            let (commandHeaders, item0, responseBody, cerr) :=
              env.command original payload
            match cerr with
            | some e => (e.code, [], .err e)
            | none =>
              let (changes, base0) :=
                env.prepare (item0.payload.getD []) original.payload true
              if ¬ changes = [] then
                let base := seedBaseValues env.routeValues base0
                let (doc, errs) := env.validate changes base
                if ¬ errs = [] then
                  (422, [], .err ⟨422, "Document contains error(s)"⟩)
                else
                  let idMismatch : Bool :=
                    match mapGet doc "id" with
                    | some idv => ¬ idv = original.id
                    | none => false
                  if idMismatch then
                    (422, [], .err ⟨422, "Cannot change document ID"⟩)
                  else
                    match NewItem digest env.now doc with
                    | .error e => (e.code, [], .err e)
                    | .ok item1 =>
                      match env.update item1 original with
                      | .error e => (e.code, [], .err e)
                      | .ok item2 =>
                        match env.projEval q.projection
                            (item2.payload.getD []) with
                        | .error e => (e.code, [], .err e)
                        | .ok pay =>
                          let item3 : RItem := { item2 with payload := some pay }
                          ( 200, commandHeaders,
                            .result item3 responseBody
                              ( if ¬ env.noContent ∨ ¬ changes = [] then
                                  some item3.payload
                                else none ) )
              else
                ( 200, commandHeaders,
                  .result item0 responseBody
                    ( if ¬ env.noContent ∨ ¬ changes = [] then
                        some item0.payload
                      else none ) )

end Put

end Rest

/-! ### Concrete fixtures and claim-comparison definitions -/

/-- A trivial concrete storage handler for witnesses. -/
def wStor : Resource.Storage Nat Nat Unit Unit Unit Unit where
  get := fun _ => (none, none)
  multiGet := fun _ => ([], none)
  find := fun _ => (none, none)
  count := fun _ => (0, none)
  insert := fun _ => none
  update := fun _ _ => none
  delete := fun _ => none
  clear := fun _ => (0, none)

/-- Pass-through concrete hooks for witnesses. -/
def wHooks : Resource.Hooks Nat Nat Unit Unit Unit Unit where
  onGet := fun _ => none
  onGot := fun it e => (it, e)
  onFind := fun _ => none
  onFound := fun _ l e => (l, e)
  onInsert := fun _ => none
  onInserted := fun its e => (its, e)
  onUpdate := fun _ _ => none
  onUpdated := fun it _ e => (it, e)
  onDelete := fun _ => none
  onDeleted := fun it e => (it, e)
  onClear := fun _ => none
  onCleared := fun _ d e => (d, e)

/-- Hooks whose get pre-hook fails, for witnesses. -/
def wHooksPreErr : Resource.Hooks Nat Nat Unit Unit Unit Unit :=
  { wHooks with onGet := fun _ => some (.err 7) }

/-- A concrete chain for the C9 witness: returns a fixed item, no
error. -/
def wChainU : Resource.Item Nat → Resource.Item Nat →
    Resource.Item Nat × Option (Resource.RErr Nat) :=
  fun _ _ => (⟨9, "h9", 1, []⟩, none)

/-- A concrete storage whose `Find` reports an unknown total and whose
`Count` knows the answer, for the C6 witness. -/
def wStorFind : Resource.Storage Nat Nat Unit Unit Unit Unit :=
  { wStor with
    find := fun _ => (some ⟨[], -1⟩, none)
    count := fun _ => (5, none) }

/-- A concrete existing original item for PUT witnesses. -/
def wOriginal : Rest.RItem := ⟨.str "1", "etag1", 10, some []⟩

/-- A concrete PUT environment whose `If-Match` token does not match
the original's ETag. -/
def wPutEnv : Rest.PutEnv Unit Unit Unit where
  decodePayload := .ok []
  routeQuery := .ok ⟨(), none, none, []⟩
  find := fun _ => (some ⟨[wOriginal], 1⟩, none)
  isModeAllowed := fun _ => true
  ifMatch := some "other"
  ifUnmodifiedSince := none
  noContent := false
  routeValues := []
  prepare := fun p _ _ => (p, [])
  validate := fun c _ => (c, [])
  update := fun it _ => .ok it
  insert := fun it => .ok it
  projEval := fun _ p => .ok p
  now := 0
  command := fun it _ => ([], it, [], none)

/-- A PUT environment whose validation produces a document with a
different `id` than the original. -/
def wPutEnvId : Rest.PutEnv Unit Unit Unit :=
  { wPutEnv with
    ifMatch := none
    validate := fun _ _ => ([("id", .str "2")], []) }

/-- A PUT environment that creates a document (no original found) under
a no-body preference, with an identity-preserving insert. -/
def wPutEnvCreate : Rest.PutEnv Unit Unit Unit :=
  { wPutEnv with
    ifMatch := none
    noContent := true
    find := fun _ => (some ⟨[], 0⟩, none)
    validate := fun _ _ => ([("id", .str "1")], []) }

/-- The MultiGet aggregate-error rule exactly as claim C3 words it (for
comparison with the code): each id's post-hook is seeded with its own
pre-hook error or else the global error, and the aggregate is the first
id whose post-hook produced an error *different from the error it was
seeded with*, else the provisional global error. -/
def claimedMultiGetAggregate {ι ε π ω σ ρ : Type} [DecidableEq ι] [DecidableEq ε]
    (stor : Resource.Storage ι ε π ω σ ρ) (hooks : Resource.Hooks ι ε π ω σ ρ)
    (ids : List ι) : Option (Resource.RErr ε) :=
  let errs := ids.map hooks.onGet
  let err0 : Option (Resource.RErr ε) := errs.findSome? (fun e => e)
  let (items0, err1) :=
    match err0 with
    | none => stor.multiGet ids
    | some e => ([], some e)
  match (List.range ids.length).find? (fun i =>
      decide (¬ (hooks.onGot (items0.getD i none) (Resource.mgSeed errs err1 i)).2 =
        Resource.mgSeed errs err1 i)) with
  | some i => (hooks.onGot (items0.getD i none) (Resource.mgSeed errs err1 i)).2
  | none => err1

/-- The aggregate-error rule the code actually implements: the first id
(in id order) whose post-hook produced a *non-nil* error different from
that id's *own pre-hook error* wins; otherwise the provisional global
error stands. -/
def amendedMultiGetAggregate {ι ε π ω σ ρ : Type} [DecidableEq ι] [DecidableEq ε]
    (stor : Resource.Storage ι ε π ω σ ρ) (hooks : Resource.Hooks ι ε π ω σ ρ)
    (ids : List ι) : Option (Resource.RErr ε) :=
  let errs := ids.map hooks.onGet
  let err0 : Option (Resource.RErr ε) := errs.findSome? (fun e => e)
  let (items0, err1) :=
    match err0 with
    | none => stor.multiGet ids
    | some e => ([], some e)
  match (List.range ids.length).find? (fun i =>
      decide (¬ (hooks.onGot (items0.getD i none) (Resource.mgSeed errs err1 i)).2 = none) &&
      decide (¬ (hooks.onGot (items0.getD i none) (Resource.mgSeed errs err1 i)).2 =
        errs.getD i none)) with
  | some i => (hooks.onGot (items0.getD i none) (Resource.mgSeed errs err1 i)).2
  | none => err1

/-- MultiGet hooks for the C3 counterexample: the pre-hook fails for
id 1 only, and the post-hook always clears the error. -/
def cHooksMG : Resource.Hooks Nat Nat Unit Unit Unit Unit :=
  { wHooks with
    onGet := fun id => if id = 1 then some (.err 1) else none
    onGot := fun it _ => (it, none) }

/-! ## Claim theorems -/

theorem rebuildChain_eq_foldr {H : Type} (dflt : H) (c : List (H → H)) :
    Resource.rebuildChain dflt c = c.foldr (fun m acc => m acc) dflt := by
  unfold Resource.rebuildChain
  rw [List.foldl_reverse]

theorem chainAll_cons {H : Type} (dflt : H) (st : List (H → H)) (m : H → H)
    (ms : List (H → H)) :
    Resource.chainAll dflt st (m :: ms) = Resource.chainAll dflt (st ++ [m]) ms := by
  simp [Resource.chainAll, Resource.chainRegister]

/-- **C4**: for every operation kind (the handler type `H` is arbitrary,
covering each `case` arm of `Chain`) and every sequence of middleware
registrations, the stored registration list is exactly the
registrations in order, and the composed handler is the right fold of
that list over a fresh default handler: the first-registered middleware
is applied outermost, the default handler innermost.  Since the result
is a function of the stored list and the default handler only, each
re-registration (any suffix of the sequence) rebuilds the chain
deterministically, preserving registration order. -/
theorem chain_first_registered_outermost {H : Type} (dflt : H)
    (st ms : List (H → H)) :
    (Resource.chainAll dflt st ms).1 = st ++ ms ∧
    (Resource.chainAll dflt st ms).2 = (st ++ ms).foldr (fun m acc => m acc) dflt := by
  induction ms generalizing st with
  | nil =>
    refine ⟨by simp [Resource.chainAll], ?_⟩
    simp [Resource.chainAll, rebuildChain_eq_foldr]
  | cons m ms ih =>
    rw [chainAll_cons]
    simpa using ih (st ++ [m])

/-- **C5**: for every hooked operation kind (Get, Find, Insert, Update,
Delete, Clear), the default handler runs pre-hook → storage call →
post-hook in that order: a pre-hook error short-circuits the storage
call (the conclusion does not depend on the storage at all — `stor` is
universally quantified and absent from the right-hand side), yet the
post-hook is still invoked, seeded with the current result and error;
on a nil pre-hook error the post-hook receives exactly the storage
call's result and error (for Insert/Update, after the intervening ETag
recomputation). -/
theorem default_handlers_pre_storage_post {ι ε π ω σ ρ : Type}
    [DecidableEq ι] [DecidableEq ε] (digest : String → String)
    (stor : Resource.Storage ι ε π ω σ ρ) (hooks : Resource.Hooks ι ε π ω σ ρ) :
    (∀ id e, hooks.onGet id = some e →
      Resource.onGetMiddlewareDefault stor hooks id = hooks.onGot none (some e)) ∧
    (∀ id, hooks.onGet id = none →
      Resource.onGetMiddlewareDefault stor hooks id =
        hooks.onGot (stor.get id).1 (stor.get id).2) ∧
    (∀ q ft e, hooks.onFind q = some e →
      Resource.onFindMiddlewareDefault stor hooks q ft = hooks.onFound q none (some e)) ∧
    (∀ q, hooks.onFind q = none →
      Resource.onFindMiddlewareDefault stor hooks q false =
        hooks.onFound q (stor.find q).1 (stor.find q).2) ∧
    (∀ items e, hooks.onInsert items = some e →
      Resource.onInsertMiddlewareDefault digest stor hooks items =
        hooks.onInserted items (some e)) ∧
    (∀ items, hooks.onInsert items = none →
      Resource.onInsertMiddlewareDefault digest stor hooks items =
        hooks.onInserted (@Resource.recalcEtag ι ε digest items).1
          (match (@Resource.recalcEtag ι ε digest items).2 with
           | some e => some e
           | none => stor.insert (@Resource.recalcEtag ι ε digest items).1)) ∧
    (∀ item original e, hooks.onUpdate item original = some e →
      Resource.onUpdateMiddlewareDefault digest stor hooks item original =
        hooks.onUpdated item original (some e)) ∧
    (∀ item original h, hooks.onUpdate item original = none →
      GenEtag digest item.payload = some h →
      Resource.onUpdateMiddlewareDefault digest stor hooks item original =
        hooks.onUpdated { item with etag := h } original
          (stor.update { item with etag := h } original)) ∧
    (∀ item e, hooks.onDelete item = some e →
      Resource.onDeleteMiddlewareDefault stor hooks item =
        hooks.onDeleted item (some e)) ∧
    (∀ item, hooks.onDelete item = none →
      Resource.onDeleteMiddlewareDefault stor hooks item =
        hooks.onDeleted item (stor.delete item)) ∧
    (∀ q e, hooks.onClear q = some e →
      Resource.onClearMiddlewareDefault stor hooks q = hooks.onCleared q 0 (some e)) ∧
    (∀ q, hooks.onClear q = none →
      Resource.onClearMiddlewareDefault stor hooks q =
        hooks.onCleared q (stor.clear q).1 (stor.clear q).2) := by
  refine ⟨?_, ?_, ?_, ?_, ?_, ?_, ?_, ?_, ?_, ?_, ?_, ?_⟩
  · intro id e h
    simp [Resource.onGetMiddlewareDefault, h]
  · intro id h
    simp [Resource.onGetMiddlewareDefault, h]
  · intro q ft e h
    simp [Resource.onFindMiddlewareDefault, h]
  · intro q h
    simp only [Resource.onFindMiddlewareDefault, h]
    rcases hf : stor.find q with ⟨l, e⟩
    rcases l with _ | l <;> rcases e with _ | e <;> simp
  · intro items e h
    simp [Resource.onInsertMiddlewareDefault, h]
  · intro items h
    simp only [Resource.onInsertMiddlewareDefault, h]
    rcases hr : Resource.recalcEtag digest items with ⟨its, ee⟩
    rcases ee with _ | e <;> simp
  · intro item original e h
    simp [Resource.onUpdateMiddlewareDefault, h]
  · intro item original hsh h hg
    simp [Resource.onUpdateMiddlewareDefault, Resource.recalcEtag, h, hg]
  · intro item e h
    simp [Resource.onDeleteMiddlewareDefault, h]
  · intro item h
    simp [Resource.onDeleteMiddlewareDefault, h]
  · intro q e h
    simp [Resource.onClearMiddlewareDefault, h]
  · intro q h
    simp [Resource.onClearMiddlewareDefault, h]

/-- Witness for C5: a concrete pre-hook error short-circuits storage
`Get` but still reaches the post-hook. -/
theorem default_handlers_pre_storage_post_witness :
    Resource.onGetMiddlewareDefault wStor wHooksPreErr 3 =
      wHooksPreErr.onGot none (some (.err 7)) :=
  (default_handlers_pre_storage_post (fun s => s) wStor wHooksPreErr).1 3 (.err 7) rfl

/-- **C9**: the `Resource.Update`/`Resource.Delete` wrappers overwrite
the caller's item with the chain-returned item exactly when the chain's
error is nil, and `Resource.Insert` copies the returned items back into
the caller's slice exactly when the error is nil; on a non-nil error
the wrapper returns the caller's item/slice untouched. -/
theorem writeback_exactly_on_success {ι ε : Type} :
    (∀ (chain : Resource.Item ι → Resource.Item ι →
        Resource.Item ι × Option (Resource.RErr ε)) item original,
      ((chain item original).2 = none →
        Resource.Update chain item original = ((chain item original).1, none)) ∧
      (∀ e, (chain item original).2 = some e →
        Resource.Update chain item original = (item, some e))) ∧
    (∀ (chain : Resource.Item ι → Resource.Item ι × Option (Resource.RErr ε)) item,
      ((chain item).2 = none →
        Resource.Delete chain item = ((chain item).1, none)) ∧
      (∀ e, (chain item).2 = some e →
        Resource.Delete chain item = (item, some e))) ∧
    (∀ (chain : List (Option (Resource.Item ι)) →
        List (Option (Resource.Item ι)) × Option (Resource.RErr ε)) items,
      ((chain items).2 = none →
        Resource.Insert chain items = (Resource.goCopy items (chain items).1, none)) ∧
      (∀ e, (chain items).2 = some e →
        Resource.Insert chain items = (items, some e))) := by
  refine ⟨?_, ?_, ?_⟩
  · intro chain item original
    constructor
    · intro h
      rcases hc : chain item original with ⟨ni, e2⟩
      rw [hc] at h; simp at h; subst h
      simp [Resource.Update, hc]
    · intro e h
      rcases hc : chain item original with ⟨ni, e2⟩
      rw [hc] at h; simp at h; subst h
      simp [Resource.Update, hc]
  · intro chain item
    constructor
    · intro h
      rcases hc : chain item with ⟨ni, e2⟩
      rw [hc] at h; simp at h; subst h
      simp [Resource.Delete, hc]
    · intro e h
      rcases hc : chain item with ⟨ni, e2⟩
      rw [hc] at h; simp at h; subst h
      simp [Resource.Delete, hc]
  · intro chain items
    constructor
    · intro h
      rcases hc : chain items with ⟨ni, e2⟩
      rw [hc] at h; simp at h; subst h
      simp [Resource.Insert, hc]
    · intro e h
      rcases hc : chain items with ⟨ni, e2⟩
      rw [hc] at h; simp at h; subst h
      simp [Resource.Insert, hc]

/-- Witness for C9: on a nil chain error, the caller's item is
overwritten with the chain's item. -/
theorem writeback_exactly_on_success_witness :
    Resource.Update wChainU ⟨1, "h1", 0, []⟩ ⟨2, "h2", 0, []⟩ =
      ((⟨9, "h9", 1, []⟩ : Resource.Item Nat), none) :=
  ((writeback_exactly_on_success.1 wChainU ⟨1, "h1", 0, []⟩ ⟨2, "h2", 0, []⟩).1 rfl).trans
    (by rfl)

/-- **C6**: under `FindWithTotal` (forced total), a successful storage
`Find` reporting an unknown total (−1) triggers a second `Count` whose
query holds only the original predicate (window, sort and projection
zeroed), and the count's result/error become the list total and the
operation error; a plain `Find` on the same situation succeeds without
consulting the counting capability at all (the result is independent of
the `count` function, so a missing-counting `NotImplemented` error can
only surface on the forced-total path). -/
theorem find_with_total_predicate_only_count {ι ε π ω σ ρ : Type}
    [DecidableEq ι] [DecidableEq ε]
    (stor : Resource.Storage ι ε π ω σ ρ) (hooks : Resource.Hooks ι ε π ω σ ρ) :
    (∀ q l, hooks.onFind q = none → stor.find q = (some l, none) → l.total = -1 →
      Resource.FindWithTotal (Resource.onFindMiddlewareDefault stor hooks) q =
        hooks.onFound q
          (some { l with total := (stor.count ⟨q.predicate, none, none, []⟩).1 })
          (stor.count ⟨q.predicate, none, none, []⟩).2) ∧
    (∀ q l, hooks.onFind q = none → stor.find q = (some l, none) →
      Resource.Find (Resource.onFindMiddlewareDefault stor hooks) q =
        hooks.onFound q (some l) none) ∧
    (∀ q (count2 : Resource.Query π ω σ ρ → Int × Option (Resource.RErr ε)),
      Resource.Find (Resource.onFindMiddlewareDefault { stor with count := count2 } hooks) q =
        Resource.Find (Resource.onFindMiddlewareDefault stor hooks) q) := by
  refine ⟨?_, ?_, ?_⟩
  · intro q l hpre hfind htot
    simp [Resource.FindWithTotal, Resource.find,
      Resource.onFindMiddlewareDefault, hpre, hfind, htot]
  · intro q l hpre hfind
    simp [Resource.Find, Resource.find,
      Resource.onFindMiddlewareDefault, hpre, hfind]
  · intro q count2
    simp only [Resource.Find, Resource.find, Resource.onFindMiddlewareDefault]
    rcases hpre : hooks.onFind q with _ | e
    · rcases hfind : stor.find q with ⟨l, e⟩
      rcases l with _ | l <;> rcases e with _ | e <;> simp
    · simp

/-- Witness for C6: the forced-total path fills in the total from
`Count`. -/
theorem find_with_total_predicate_only_count_witness :
    Resource.FindWithTotal
        (Resource.onFindMiddlewareDefault wStorFind wHooks) ⟨(), none, none, []⟩ =
      (some ⟨[], 5⟩, none) := by
  have h := (find_with_total_predicate_only_count wStorFind wHooks).1
    ⟨(), none, none, []⟩ ⟨[], -1⟩ rfl rfl rfl
  simpa using h

theorem recalcEtag_ok_spec {ι ε : Type} (digest : String → String) :
    ∀ (items its : List (Option (Resource.Item ι))),
      @Resource.recalcEtag ι ε digest items = (its, none) →
      its.length = items.length ∧
      (∀ (i : Nat) (it : Resource.Item ι), its[i]? = some (some it) →
        ∃ it0, items[i]? = some (some it0) ∧ it.id = it0.id ∧
          it.updated = it0.updated ∧ it.payload = it0.payload ∧
          GenEtag digest it.payload = some it.etag) := by
  intro items
  induction items with
  | nil =>
    intro its h
    simp [Resource.recalcEtag] at h
    subst h
    simp
  | cons x rest ih =>
    intro its h
    rcases x with _ | it0
    · rcases hr : @Resource.recalcEtag ι ε digest rest with ⟨r2, e2⟩
      simp [Resource.recalcEtag, hr] at h
      rcases h with ⟨h1, h2⟩
      subst h1; subst h2
      obtain ⟨hlen, hspec⟩ := ih r2 hr
      refine ⟨by simp [hlen], ?_⟩
      intro i it hit
      rcases i with _ | i
      · simp at hit
      · simp at hit
        obtain ⟨it0, h0, hrest⟩ := hspec i it hit
        exact ⟨it0, by simpa using h0, hrest⟩
    · rcases hg : GenEtag digest it0.payload with _ | etag
      · simp [Resource.recalcEtag, hg] at h
      · rcases hr : @Resource.recalcEtag ι ε digest rest with ⟨r2, e2⟩
        simp [Resource.recalcEtag, hg, hr] at h
        rcases h with ⟨h1, h2⟩
        subst h1; subst h2
        obtain ⟨hlen, hspec⟩ := ih r2 hr
        refine ⟨by simp [hlen], ?_⟩
        intro i it hit
        rcases i with _ | i
        · simp at hit
          subst hit
          exact ⟨it0, by simp, by simp, by simp, by simp, by simpa using hg⟩
        · simp at hit
          obtain ⟨it1, h0, hrest⟩ := hspec i it hit
          exact ⟨it1, by simpa using h0, hrest⟩

/-- **C1**: in the default Insert/Update handlers, once the pre-hook
returns nil, every item's ETag is recomputed with `GenEtag` from the
item's (post-mutation) payload and written into the item before the
storage call — the items handed to `storage.Insert`/`storage.Update`
satisfy `GenEtag payload = some etag` — and if the hash computation
fails, the storage handler is never invoked (the outcome is the same
for every storage handler `stor2`) and the operation returns the
hashing error (whenever the post-hook preserves the seeded error). -/
theorem etag_recomputed_before_storage {ι ε π ω σ ρ : Type}
    [DecidableEq ι] [DecidableEq ε] (digest : String → String)
    (stor : Resource.Storage ι ε π ω σ ρ) (hooks : Resource.Hooks ι ε π ω σ ρ) :
    (∀ items its, hooks.onInsert items = none →
      @Resource.recalcEtag ι ε digest items = (its, none) →
      Resource.onInsertMiddlewareDefault digest stor hooks items =
        hooks.onInserted its (stor.insert its) ∧
      (∀ (i : Nat) (it : Resource.Item ι), its[i]? = some (some it) →
        GenEtag digest it.payload = some it.etag)) ∧
    (∀ items its e, hooks.onInsert items = none →
      @Resource.recalcEtag ι ε digest items = (its, some e) →
      (∀ stor2 : Resource.Storage ι ε π ω σ ρ,
        Resource.onInsertMiddlewareDefault digest stor2 hooks items =
          hooks.onInserted its (some e)) ∧
      ((∀ its2 e2, (hooks.onInserted its2 e2).2 = e2) →
        (Resource.onInsertMiddlewareDefault digest stor hooks items).2 = some e)) ∧
    (∀ item original h, hooks.onUpdate item original = none →
      GenEtag digest item.payload = some h →
      Resource.onUpdateMiddlewareDefault digest stor hooks item original =
        hooks.onUpdated { item with etag := h } original
          (stor.update { item with etag := h } original) ∧
      GenEtag digest ({ item with etag := h } : Resource.Item ι).payload =
        some ({ item with etag := h } : Resource.Item ι).etag) ∧
    (∀ item original, hooks.onUpdate item original = none →
      GenEtag digest item.payload = none →
      (∀ stor2 : Resource.Storage ι ε π ω σ ρ,
        Resource.onUpdateMiddlewareDefault digest stor2 hooks item original =
          hooks.onUpdated item original (some .marshal)) ∧
      ((∀ it2 o2 e2, (hooks.onUpdated it2 o2 e2).2 = e2) →
        (Resource.onUpdateMiddlewareDefault digest stor hooks item original).2 =
          some .marshal)) := by
  refine ⟨?_, ?_, ?_, ?_⟩
  · intro items its hpre hr
    constructor
    · simp [Resource.onInsertMiddlewareDefault, hpre, hr]
    · intro i it hit
      obtain ⟨_, hspec⟩ := recalcEtag_ok_spec digest items its hr
      obtain ⟨it0, _, _, _, hpay, hg⟩ := hspec i it hit
      exact hg
  · intro items its e hpre hr
    constructor
    · intro stor2
      simp [Resource.onInsertMiddlewareDefault, hpre, hr]
    · intro hpost
      simp [Resource.onInsertMiddlewareDefault, hpre, hr, hpost]
  · intro item original h hpre hg
    constructor
    · simp [Resource.onUpdateMiddlewareDefault, Resource.recalcEtag, hpre, hg]
    · simpa using hg
  · intro item original hpre hg
    constructor
    · intro stor2
      simp [Resource.onUpdateMiddlewareDefault, Resource.recalcEtag, hpre, hg]
    · intro hpost
      simp [Resource.onUpdateMiddlewareDefault, Resource.recalcEtag, hpre, hg, hpost]

/-- Witness for C1: a concrete update whose pre-hook passes gets its
ETag recomputed from the payload before the storage call. -/
theorem etag_recomputed_before_storage_witness :
    Resource.onUpdateMiddlewareDefault (fun s => s) wStor wHooks
        ⟨1, "stale", 0, [("a", .num 1)]⟩ ⟨1, "orig", 0, []⟩ =
      wHooks.onUpdated ⟨1, "\x7b\"a\":1\x7d", 0, [("a", .num 1)]⟩ ⟨1, "orig", 0, []⟩
        (wStor.update ⟨1, "\x7b\"a\":1\x7d", 0, [("a", .num 1)]⟩ ⟨1, "orig", 0, []⟩) := by
  have h := ((etag_recomputed_before_storage (fun s => s) wStor wHooks).2.2.1
    ⟨1, "stale", 0, [("a", .num 1)]⟩ ⟨1, "orig", 0, []⟩ "\x7b\"a\":1\x7d" rfl (by decide)).1
  simpa using h

theorem charListLe_cons (a b : Char) (as bs : List Char) :
    charListLe (a :: as) (b :: bs) = true ↔
      (a.toNat < b.toNat ∨ (a.toNat = b.toNat ∧ charListLe as bs = true)) := by
  have e : charListLe (a :: as) (b :: bs) =
      if a.toNat < b.toNat then true
      else if b.toNat < a.toNat then false
      else charListLe as bs := rfl
  by_cases h1 : a.toNat < b.toNat
  · rw [e, if_pos h1]
    exact iff_of_true rfl (Or.inl h1)
  · by_cases h2 : b.toNat < a.toNat
    · rw [e, if_neg h1, if_pos h2]
      apply iff_of_false (by simp)
      rintro (h | ⟨heq, _⟩)
      · exact h1 h
      · omega
    · rw [e, if_neg h1, if_neg h2]
      have heq : a.toNat = b.toNat := by omega
      constructor
      · intro h
        exact Or.inr ⟨heq, h⟩
      · rintro (h | ⟨_, h⟩)
        · exact absurd h h1
        · exact h

theorem charListLe_total : ∀ as bs, charListLe as bs = true ∨ charListLe bs as = true := by
  intro as
  induction as with
  | nil => intro bs; left; simp [charListLe]
  | cons a as ih =>
    intro bs
    rcases bs with _ | ⟨b, bs⟩
    · right; simp [charListLe]
    · rw [charListLe_cons, charListLe_cons]
      rcases Nat.lt_trichotomy a.toNat b.toNat with hlt | heq | hgt
      · left; left; exact hlt
      · rcases ih bs with h | h
        · left; right; exact ⟨heq, h⟩
        · right; right; exact ⟨heq.symm, h⟩
      · right; left; exact hgt

theorem charListLe_trans : ∀ as bs cs, charListLe as bs = true →
    charListLe bs cs = true → charListLe as cs = true := by
  intro as
  induction as with
  | nil => intro bs cs _ _; simp [charListLe]
  | cons a as ih =>
    intro bs cs hab hbc
    rcases bs with _ | ⟨b, bs⟩
    · simp [charListLe] at hab
    · rcases cs with _ | ⟨c, cs⟩
      · simp [charListLe] at hbc
      · rw [charListLe_cons] at hab hbc ⊢
        rcases hab with h | ⟨heq, h⟩ <;> rcases hbc with h' | ⟨heq', h'⟩
        · left; omega
        · left; omega
        · left; omega
        · right; exact ⟨by omega, ih bs cs h h'⟩

theorem charListLe_antisymm : ∀ as bs, charListLe as bs = true →
    charListLe bs as = true → as = bs := by
  intro as
  induction as with
  | nil =>
    intro bs _ hba
    rcases bs with _ | ⟨b, bs⟩
    · rfl
    · simp [charListLe] at hba
  | cons a as ih =>
    intro bs hab hba
    rcases bs with _ | ⟨b, bs⟩
    · simp [charListLe] at hab
    · rw [charListLe_cons] at hab hba
      rcases hab with h | ⟨heq, h⟩
      · rcases hba with h' | ⟨heq', _⟩ <;> omega
      · rcases hba with h' | ⟨heq', h'⟩
        · omega
        · have hch : a = b := Char.ext_iff.mpr (UInt32.ext heq)
          rw [hch, ih bs h h']

instance : IsTotal String keyLeP :=
  ⟨fun a b => by unfold keyLeP keyLe; exact charListLe_total a.data b.data⟩

instance : IsTrans String keyLeP :=
  ⟨fun a b c hab hbc => by
    unfold keyLeP keyLe at hab hbc ⊢
    exact charListLe_trans a.data b.data c.data hab hbc⟩

instance : IsAntisymm String keyLeP :=
  ⟨fun a b hab hba => by
    unfold keyLeP keyLe at hab hba
    have hd := charListLe_antisymm a.data b.data hab hba
    cases a
    cases b
    exact congrArg String.mk hd⟩

theorem mem_mapKeys_iff (m : GoMap) (k : String) :
    k ∈ mapKeys m ↔ (mapGet m k).isSome := by
  unfold mapKeys mapGet
  induction m with
  | nil => simp
  | cons kv rest ih =>
    by_cases h : kv.1 = k
    · simp [List.find?_cons, h]
    · simp [List.find?_cons, h, ih]
      exact fun h' => absurd h'.symm h

theorem insertionSort_keys_eq (l1 l2 : List String) (h1 : l1.Nodup)
    (h2 : l2.Nodup) (h : ∀ k, k ∈ l1 ↔ k ∈ l2) :
    List.insertionSort keyLeP l1 = List.insertionSort keyLeP l2 := by
  refine List.eq_of_perm_of_sorted ?_ (List.sorted_insertionSort keyLeP l1)
    (List.sorted_insertionSort keyLeP l2)
  exact ((List.perm_insertionSort keyLeP l1).trans
    ((List.perm_ext_iff_of_nodup h1 h2).mpr h)).trans
    (List.perm_insertionSort keyLeP l2).symm

/-- **C10**: `GenEtag` is deterministic — for any two payload maps that
are equal field-for-field (same bindings looked up key by key; the
key-uniqueness hypotheses are the Go-map representation invariant), it
returns the same result, hash and success/error outcome alike, whatever
their representation order; in particular two runs on the same payload
agree. -/
theorem GenEtag_deterministic (digest : String → String) (p q : GoMap)
    (hp : (mapKeys p).Nodup) (hq : (mapKeys q).Nodup)
    (h : ∀ k, mapGet p k = mapGet q k) :
    GenEtag digest p = GenEtag digest q := by
  unfold GenEtag
  suffices hj : jsonMarshal p = jsonMarshal q by rw [hj]
  unfold jsonMarshal
  have hks : List.insertionSort keyLeP (mapKeys p) =
      List.insertionSort keyLeP (mapKeys q) := by
    apply insertionSort_keys_eq _ _ hp hq
    intro k
    rw [mem_mapKeys_iff, mem_mapKeys_iff, h k]
  have hfun : (fun k => match mapGet p k with
      | some v => (renderJVal v).map (fun sv => "\"" ++ k ++ "\":" ++ sv)
      | none => none)
      = (fun k => match mapGet q k with
      | some v => (renderJVal v).map (fun sv => "\"" ++ k ++ "\":" ++ sv)
      | none => none) := by
    funext k
    rw [h k]
  rw [hks, hfun]

/-- Witness for C10: two representations of the same two-field payload,
in opposite orders, hash identically. -/
theorem GenEtag_deterministic_witness :
    GenEtag (fun s => s) [("b", .num 2), ("a", .str "x")] =
      GenEtag (fun s => s) [("a", .str "x"), ("b", .num 2)] := by
  apply GenEtag_deterministic (fun s => s) _ _ (by decide) (by decide)
  intro k
  by_cases hb : ("b" : String) = k
  · subst hb; decide
  · by_cases ha : ("a" : String) = k
    · subst ha; decide
    · simp [mapGet, List.find?_cons, hb, ha]

theorem checkIntegrityRequest_mismatch (ifM : Option String) (ifU : Option Nat)
    (o : Rest.RItem)
    (h : (∃ m, ifM = some m ∧ ¬ m = o.etag) ∨
         (∃ t, ifU = some t ∧ o.updated > t)) :
    Rest.checkIntegrityRequest ifM ifU (some o) = some Rest.ErrPreconditionFailed := by
  rcases h with ⟨m, hm, hne⟩ | ⟨t, ht, hgt⟩
  · subst hm
    simp [Rest.checkIntegrityRequest, hne]
  · subst ht
    rcases hm : ifM with _ | m
    · simp [Rest.checkIntegrityRequest, hgt]
    · by_cases hme : m = o.etag
      · simp [Rest.checkIntegrityRequest, hme, hgt]
      · simp [Rest.checkIntegrityRequest, hme]

/-- **C2**: on a PUT reaching an existing original (replace path and
command path alike), a caller-supplied conditional-request token that
does not match the original — an `If-Match` hash different from the
original's ETag, or an `If-Unmodified-Since` bound earlier than the
original's update time — makes the operation return the
precondition-failed condition (HTTP 412); the environment's
`prepare`/`validate`/`update`/`insert`/`command` collaborators are
universally quantified and absent from the conclusion, so none of them
(in particular no mutating storage call) is ever invoked and the
document is untouched. -/
theorem precondition_failed_aborts {π σ ρ : Type} [DecidableEq π]
    [DecidableEq σ] [DecidableEq ρ] (digest : String → String) :
    (∀ (env : Rest.PutEnv π σ ρ) payload q0 ll o,
      env.decodePayload = .ok payload →
      env.routeQuery = .ok q0 →
      env.find { q0 with window := some 1 } = (some ll, none) →
      ll.items = [o] →
      env.isModeAllowed .replace = true →
      ((∃ m, env.ifMatch = some m ∧ ¬ m = o.etag) ∨
       (∃ t, env.ifUnmodifiedSince = some t ∧ o.updated > t)) →
      Rest.itemPutCreateReplace digest env = (412, .err Rest.ErrPreconditionFailed)) ∧
    (∀ (env : Rest.PutEnv π σ ρ) payload q0 ll o rest,
      env.decodePayload = .ok payload →
      env.routeQuery = .ok q0 →
      env.find { q0 with window := some 1 } = (some ll, none) →
      ll.items = o :: rest →
      ((∃ m, env.ifMatch = some m ∧ ¬ m = o.etag) ∨
       (∃ t, env.ifUnmodifiedSince = some t ∧ o.updated > t)) →
      Rest.itemPutCommand digest env = (412, [], .err Rest.ErrPreconditionFailed)) := by
  constructor
  · intro env payload q0 ll o hdec hq hfind hitems hmode hmis
    have hint := checkIntegrityRequest_mismatch env.ifMatch env.ifUnmodifiedSince o hmis
    simp [Rest.itemPutCreateReplace, hdec, hq, hfind, hitems,
      Rest.itemPutWithOriginal, hmode, hint, Rest.ErrPreconditionFailed]
  · intro env payload q0 ll o rest hdec hq hfind hitems hmis
    have hint := checkIntegrityRequest_mismatch env.ifMatch env.ifUnmodifiedSince o hmis
    simp [Rest.itemPutCommand, hdec, hq, hfind, hitems, hint,
      Rest.ErrPreconditionFailed]

/-- Witness for C2: the stale `If-Match` aborts the concrete replace
with 412. -/
theorem precondition_failed_aborts_witness :
    Rest.itemPutCreateReplace (fun s => s) wPutEnv =
      (412, .err Rest.ErrPreconditionFailed) :=
  (precondition_failed_aborts (fun s => s)).1 wPutEnv [] ⟨(), none, none, []⟩
    ⟨[wOriginal], 1⟩ wOriginal rfl rfl rfl rfl rfl
    (Or.inl ⟨"other", rfl, by decide⟩)

/-- **C7**: on both the replace path and the command path, when the
validated document carries an `id` field different from the original
item's identity, the operation answers 422 "Cannot change document ID";
the environment's `update`/`insert` collaborators are universally
quantified and absent from the conclusion, so no mutating storage call
is made.  Moreover `NewItem` takes the item's identity from the
document's `id` field, so a successful store on those paths keeps the
original identity. -/
theorem id_change_rejected {π σ ρ : Type} [DecidableEq π]
    [DecidableEq σ] [DecidableEq ρ] (digest : String → String) :
    (∀ (env : Rest.PutEnv π σ ρ) payload q0 ll o doc idv,
      env.decodePayload = .ok payload →
      env.routeQuery = .ok q0 →
      env.find { q0 with window := some 1 } = (some ll, none) →
      ll.items = [o] →
      env.isModeAllowed .replace = true →
      Rest.checkIntegrityRequest env.ifMatch env.ifUnmodifiedSince (some o) = none →
      env.validate
          (Rest.seedRouteValues env.routeValues (env.prepare payload o.payload true)).1
          (Rest.seedRouteValues env.routeValues (env.prepare payload o.payload true)).2 =
        (doc, []) →
      mapGet doc "id" = some idv →
      ¬ idv = o.id →
      Rest.itemPutCreateReplace digest env =
        (422, .err ⟨422, "Cannot change document ID"⟩)) ∧
    (∀ (env : Rest.PutEnv π σ ρ) payload q0 ll o rest hdrs item0 resp doc idv,
      env.decodePayload = .ok payload →
      env.routeQuery = .ok q0 →
      env.find { q0 with window := some 1 } = (some ll, none) →
      ll.items = o :: rest →
      Rest.checkIntegrityRequest env.ifMatch env.ifUnmodifiedSince (some o) = none →
      env.command o payload = (hdrs, item0, resp, none) →
      ¬ (env.prepare (item0.payload.getD []) o.payload true).1 = [] →
      env.validate (env.prepare (item0.payload.getD []) o.payload true).1
          (Rest.seedBaseValues env.routeValues
            (env.prepare (item0.payload.getD []) o.payload true).2) =
        (doc, []) →
      mapGet doc "id" = some idv →
      ¬ idv = o.id →
      Rest.itemPutCommand digest env =
        (422, [], .err ⟨422, "Cannot change document ID"⟩)) ∧
    (∀ (now : Nat) (doc : GoMap) (idv : JVal) (it : Rest.RItem),
      mapGet doc "id" = some idv →
      Rest.NewItem digest now doc = .ok it →
      it.id = idv) := by
  refine ⟨?_, ?_, ?_⟩
  · intro env payload q0 ll o doc idv hdec hq hfind hitems hmode hint hval hid hne
    simp [Rest.itemPutCreateReplace, hdec, hq, hfind, hitems,
      Rest.itemPutWithOriginal, hmode, hint, hval, hid, hne]
  · intro env payload q0 ll o rest hdrs item0 resp doc idv
      hdec hq hfind hitems hint hcmd hch hval hid hne
    simp [Rest.itemPutCommand, hdec, hq, hfind, hitems, hint, hcmd, hch,
      hval, hid, hne]
  · intro now doc idv it hid hnew
    simp [Rest.NewItem, hid] at hnew
    rcases hg : GenEtag digest doc with _ | h
    · simp [hg] at hnew
    · simp [hg] at hnew
      rw [← hnew]

/-- Witness for C7: the concrete replace whose validated document
renames the id is rejected with 422. -/
theorem id_change_rejected_witness :
    Rest.itemPutCreateReplace (fun s => s) wPutEnvId =
      (422, .err ⟨422, "Cannot change document ID"⟩) :=
  (id_change_rejected (fun s => s)).1 wPutEnvId [] ⟨(), none, none, []⟩
    ⟨[wOriginal], 1⟩ wOriginal [("id", .str "2")] (.str "2")
    rfl rfl rfl rfl rfl rfl rfl rfl (by decide)

/-- Counterexample for C8 as stated: a PUT create under a no-body
preference whose pre- and post-mutation hashes are equal returns an
empty payload, but with status 201, not the claimed no-content 204. -/
theorem noContent_elision_counterexample :
    wPutEnvCreate.noContent = true ∧
    Rest.itemPutCreateReplace (fun s => s) wPutEnvCreate =
      (201, .item ⟨.str "1", "\x7b\"id\":\"1\"\x7d", 0, none⟩) ∧
    ¬ (Rest.itemPutCreateReplace (fun s => s) wPutEnvCreate).1 = 204 := by
  refine ⟨rfl, ?_, ?_⟩ <;> decide

/-- **C8** (amended): on a PUT reaching the store step, under a no-body
preference with equal pre- and post-mutation projected output hashes
the payload is elided and a replace (status 200) is reported as
no-content 204 — while a create keeps its 201 status with the empty
payload; in every other case the full item is returned with the normal
status. -/
theorem noContent_elision_amended {π σ ρ : Type} [DecidableEq π]
    [DecidableEq σ] [DecidableEq ρ] (digest : String → String) :
    ∀ (env : Rest.PutEnv π σ ρ) q status0 original item0 pre item1 pay2 post,
      Rest.preHookEtagOf digest env q item0 = .ok pre →
      Rest.storeItem env original item0 = .ok item1 →
      env.projEval q.projection (item1.payload.getD []) = .ok pay2 →
      Rest.postHookEtagOf digest q item1 pay2 = .ok post →
      (env.noContent = true → pre = post →
        Rest.putStoreAndRespond digest env q status0 original item0 =
          ((if status0 = 200 then 204 else status0),
            .item { item1 with payload := none })) ∧
      ((env.noContent = false ∨ ¬ pre = post) →
        Rest.putStoreAndRespond digest env q status0 original item0 =
          (status0, .item { item1 with payload := some pay2 })) := by
  intro env q status0 original item0 pre item1 pay2 post hpre hstore hproj hpost
  constructor
  · intro hnc heq
    simp [Rest.putStoreAndRespond, hpre, hstore, hproj, hpost, hnc, heq]
  · intro hcase
    rcases hcase with hnc | hne
    · simp [Rest.putStoreAndRespond, hpre, hstore, hproj, hpost, hnc]
    · simp [Rest.putStoreAndRespond, hpre, hstore, hproj, hpost, hne]

/-- Witness for the amended C8: a concrete replace-status store under a
no-body preference with equal hashes yields 204 and an empty payload. -/
theorem noContent_elision_amended_witness :
    Rest.putStoreAndRespond (fun s => s) wPutEnvCreate ⟨(), none, none, []⟩ 200 none
        ⟨.str "1", "e", 0, some []⟩ =
      (204, .item ⟨.str "1", "e", 0, none⟩) :=
  ((noContent_elision_amended (fun s => s) wPutEnvCreate ⟨(), none, none, []⟩ 200 none
      ⟨.str "1", "e", 0, some []⟩ "e" ⟨.str "1", "e", 0, some []⟩ [] "e"
      rfl rfl rfl rfl).1 rfl rfl).trans rfl

/-- Counterexample for C3 as stated: with ids `[0, 1]`, a pre-hook
error on id 1 only, and a post-hook that rewrites every seeded error to
nil, the claim's rule (id 0's post-hook produced `none`, different from
its seed — the global error) predicts a nil aggregate error, but the
code compares against id 0's own pre-hook error (`none` vs `none`) and
returns the untouched global error. -/
theorem multiget_first_changed_error_counterexample :
    ¬ (Resource.onMultiGetMiddlewareDefault wStor cHooksMG [0, 1]).2 =
        claimedMultiGetAggregate wStor cHooksMG [0, 1] ∧
    (Resource.onMultiGetMiddlewareDefault wStor cHooksMG [0, 1]).2 = some (.err 1) ∧
    claimedMultiGetAggregate wStor cHooksMG [0, 1] = none := by
  refine ⟨?_, ?_, ?_⟩ <;> decide

theorem mgStep_fold_spec {ι ε π ω σ ρ : Type} [DecidableEq ι] [DecidableEq ε]
    (hooks : Resource.Hooks ι ε π ω σ ρ) (errs : List (Option (Resource.RErr ε)))
    (err1 : Option (Resource.RErr ε)) (items0 : List (Option (Resource.Item ι))) :
    ∀ n,
      ((List.range n).foldl (Resource.mgStep hooks errs err1) (items0, none)).1.length =
        items0.length ∧
      (∀ j, n ≤ j →
        ((List.range n).foldl (Resource.mgStep hooks errs err1) (items0, none)).1[j]? =
          items0[j]?) ∧
      ((List.range n).foldl (Resource.mgStep hooks errs err1) (items0, none)).2 =
        (match (List.range n).find? (fun i =>
            decide (¬ (hooks.onGot (items0.getD i none) (Resource.mgSeed errs err1 i)).2 = none) &&
            decide (¬ (hooks.onGot (items0.getD i none) (Resource.mgSeed errs err1 i)).2 =
              errs.getD i none)) with
         | some i => (hooks.onGot (items0.getD i none) (Resource.mgSeed errs err1 i)).2
         | none => none) := by
  intro n
  induction n with
  | zero => simp
  | succ n ih =>
    obtain ⟨ihlen, ihget, iheo⟩ := ih
    have hfold : (List.range (n + 1)).foldl (Resource.mgStep hooks errs err1) (items0, none) =
        Resource.mgStep hooks errs err1
          ((List.range n).foldl (Resource.mgStep hooks errs err1) (items0, none)) n := by
      rw [List.range_succ, List.foldl_append]
      rfl
    have hgd : ((List.range n).foldl (Resource.mgStep hooks errs err1) (items0, none)).1.getD n none =
        items0.getD n none := by
      rw [List.getD_eq_getElem?_getD, List.getD_eq_getElem?_getD, ihget n (Nat.le_refl n)]
    rcases hgot : hooks.onGot (items0.getD n none) (Resource.mgSeed errs err1 n) with ⟨item2, e2⟩
    refine ⟨?_, ?_, ?_⟩
    · rw [hfold]
      simp only [Resource.mgStep, hgd, hgot]
      split
      · simpa using ihlen
      · exact ihlen
    · intro j hj
      rw [hfold]
      simp only [Resource.mgStep, hgd, hgot]
      have hnj : n ≠ j := by omega
      split
      · rw [List.getElem?_set_ne hnj]
        exact ihget j (by omega)
      · exact ihget j (by omega)
    · rw [hfold]
      simp only [Resource.mgStep, hgd, hgot]
      rw [List.range_succ, List.find?_append]
      rcases hf : (List.range n).find? (fun i =>
          decide (¬ (hooks.onGot (items0.getD i none) (Resource.mgSeed errs err1 i)).2 = none) &&
          decide (¬ (hooks.onGot (items0.getD i none) (Resource.mgSeed errs err1 i)).2 =
            errs.getD i none)) with _ | i
      · rw [hf] at iheo
        simp only at iheo
        rw [iheo, Option.none_or]
        by_cases he2 : e2 = none
        · have hpn : (decide (¬ (hooks.onGot (items0.getD n none)
              (Resource.mgSeed errs err1 n)).2 = none) &&
              decide (¬ (hooks.onGot (items0.getD n none)
                (Resource.mgSeed errs err1 n)).2 = errs.getD n none)) = false := by
            rw [hgot]
            simp [he2]
          have hsing : List.find? (fun i =>
              decide (¬ (hooks.onGot (items0.getD i none) (Resource.mgSeed errs err1 i)).2 = none) &&
              decide (¬ (hooks.onGot (items0.getD i none) (Resource.mgSeed errs err1 i)).2 =
                errs.getD i none)) [n] = none := by
            simp only [List.find?]
            rw [hpn]
          rw [hsing]
          by_cases hc : e2 = errs.getD n none
          · rw [if_neg (fun h => h.2 hc)]
          · rw [if_pos ⟨rfl, hc⟩]
            exact he2
        · by_cases hc : e2 = errs.getD n none
          · have hpn : (decide (¬ (hooks.onGot (items0.getD n none)
                (Resource.mgSeed errs err1 n)).2 = none) &&
                decide (¬ (hooks.onGot (items0.getD n none)
                  (Resource.mgSeed errs err1 n)).2 = errs.getD n none)) = false := by
              rw [hgot]
              simp [hc]
            have hsing : List.find? (fun i =>
                decide (¬ (hooks.onGot (items0.getD i none) (Resource.mgSeed errs err1 i)).2 = none) &&
                decide (¬ (hooks.onGot (items0.getD i none) (Resource.mgSeed errs err1 i)).2 =
                  errs.getD i none)) [n] = none := by
              simp only [List.find?]
              rw [hpn]
            rw [hsing]
            rw [if_neg (fun h => h.2 hc)]
          · have hpn : (decide (¬ (hooks.onGot (items0.getD n none)
                (Resource.mgSeed errs err1 n)).2 = none) &&
                decide (¬ (hooks.onGot (items0.getD n none)
                  (Resource.mgSeed errs err1 n)).2 = errs.getD n none)) = true := by
              rw [hgot]
              simp only [Bool.and_eq_true, decide_eq_true_eq]
              exact ⟨he2, hc⟩
            have hsing : List.find? (fun i =>
                decide (¬ (hooks.onGot (items0.getD i none) (Resource.mgSeed errs err1 i)).2 = none) &&
                decide (¬ (hooks.onGot (items0.getD i none) (Resource.mgSeed errs err1 i)).2 =
                  errs.getD i none)) [n] = some n := by
              simp only [List.find?]
              rw [hpn]
            rw [hsing]
            rw [if_pos ⟨rfl, hc⟩]
            exact (congrArg Prod.snd hgot).symm
      · rw [hf] at iheo
        have hp := List.find?_some hf
        simp only [Bool.and_eq_true, decide_eq_true_eq] at hp
        simp only at iheo
        rw [iheo]
        have hcond : ¬ ((hooks.onGot (items0.getD i none) (Resource.mgSeed errs err1 i)).2 = none ∧
            ¬ e2 = errs.getD n none) := fun hcontra => hp.1 hcontra.1
        rw [if_neg hcond]
        rfl

theorem mg_final_shape {α β : Type} [DecidableEq β] (its : List α) (x : Option β)
    (h : ¬ ((if x = none then (its, x) else ([], x)) : List α × Option β).2 = none) :
    ((if x = none then (its, x) else ([], x)) : List α × Option β).1 = [] := by
  by_cases hx : x = none <;> simp [hx] at h ⊢

/-- **C3** (amended): in MultiGet's default handler the first (in id
order) per-id pre-hook error becomes the provisional global error and
suppresses the storage round-trip (the result does not depend on the
`multiGet` storage function then); each id's post-hook is seeded with
its own pre-hook error or else the global error; the final aggregate
error is the first id (in id order) whose post-hook produced a
*non-nil* error different from that id's *own pre-hook* error — not
from the seeded error, which is where the original claim fails —
otherwise the provisional global error; and a non-nil aggregate error
nils the returned item list. -/
theorem multiget_first_changed_error_aggregate {ι ε π ω σ ρ : Type}
    [DecidableEq ι] [DecidableEq ε]
    (stor : Resource.Storage ι ε π ω σ ρ) (hooks : Resource.Hooks ι ε π ω σ ρ)
    (ids : List ι) :
    (Resource.onMultiGetMiddlewareDefault stor hooks ids).2 =
      amendedMultiGetAggregate stor hooks ids ∧
    (¬ (Resource.onMultiGetMiddlewareDefault stor hooks ids).2 = none →
      (Resource.onMultiGetMiddlewareDefault stor hooks ids).1 = []) ∧
    (∀ e, (ids.map hooks.onGet).findSome? (fun x => x) = some e →
      ∀ mg, Resource.onMultiGetMiddlewareDefault { stor with multiGet := mg } hooks ids =
        Resource.onMultiGetMiddlewareDefault stor hooks ids) := by
  refine ⟨?_, ?_, ?_⟩
  · rcases herr0 : (ids.map hooks.onGet).findSome? (fun e => e) with _ | e
    · simp only [Resource.onMultiGetMiddlewareDefault, amendedMultiGetAggregate, herr0]
      rcases hmg : stor.multiGet ids with ⟨its0, e1⟩
      obtain ⟨_, _, heo⟩ :=
        mgStep_fold_spec hooks (ids.map hooks.onGet) e1 its0 ids.length
      rw [heo]
      rcases hfind : (List.range ids.length).find? (fun i =>
          decide (¬ (hooks.onGot (its0.getD i none)
            (Resource.mgSeed (ids.map hooks.onGet) e1 i)).2 = none) &&
          decide (¬ (hooks.onGot (its0.getD i none)
            (Resource.mgSeed (ids.map hooks.onGet) e1 i)).2 =
            (ids.map hooks.onGet).getD i none)) with _ | i
      · by_cases h1 : e1 = none <;> simp [h1]
      · have hp := List.find?_some hfind
        simp only [Bool.and_eq_true, decide_eq_true_eq] at hp
        rcases hpost : (hooks.onGot (its0.getD i none)
            (Resource.mgSeed (ids.map hooks.onGet) e1 i)).2 with _ | pe
        · exact absurd hpost hp.1
        · simp only [List.getD_eq_getElem?_getD] at hpost
          simp [hpost]
    · simp only [Resource.onMultiGetMiddlewareDefault, amendedMultiGetAggregate, herr0]
      obtain ⟨_, _, heo⟩ :=
        mgStep_fold_spec hooks (ids.map hooks.onGet) (some e) [] ids.length
      rw [heo]
      rcases hfind : (List.range ids.length).find? (fun i =>
          decide (¬ (hooks.onGot (([] : List (Option (Resource.Item ι))).getD i none)
            (Resource.mgSeed (ids.map hooks.onGet) (some e) i)).2 = none) &&
          decide (¬ (hooks.onGot (([] : List (Option (Resource.Item ι))).getD i none)
            (Resource.mgSeed (ids.map hooks.onGet) (some e) i)).2 =
            (ids.map hooks.onGet).getD i none)) with _ | i
      · simp
      · have hp := List.find?_some hfind
        simp only [Bool.and_eq_true, decide_eq_true_eq] at hp
        rcases hpost : (hooks.onGot (([] : List (Option (Resource.Item ι))).getD i none)
            (Resource.mgSeed (ids.map hooks.onGet) (some e) i)).2 with _ | pe
        · exact absurd hpost hp.1
        · simp at hpost
          simp [hpost]
  · intro h
    simp only [Resource.onMultiGetMiddlewareDefault] at h ⊢
    exact mg_final_shape _ _ h
  · intro e he mg
    simp only [Resource.onMultiGetMiddlewareDefault, he]

/-- Witness for the amended C3: with a pre-hook error present, the
result does not depend on the storage `multiGet` function. -/
theorem multiget_first_changed_error_aggregate_witness :
    Resource.onMultiGetMiddlewareDefault
        { wStor with multiGet := fun _ => ([some ⟨5, "h", 0, []⟩], none) }
        cHooksMG [0, 1] =
      Resource.onMultiGetMiddlewareDefault wStor cHooksMG [0, 1] :=
  (multiget_first_changed_error_aggregate wStor cHooksMG [0, 1]).2.2 (.err 1)
    (by decide) _
